import Mathlib

/-!
Verification of `pytrendsdaily` (src/pytrendsdaily/dailydata.py).

The file shallowly embeds the two functions of the repository:

* `_fetchData` (dailydata.py lines 20-33): a retry loop around the upstream
  `build_payload` call, modelled as a function over the list of outcomes the
  upstream produces on successive attempts.
* `getDailyData` (dailydata.py lines 36-131): fetches a monthly series for
  `[2004-01-01, stop_date]`, fetches daily data month by month, resamples,
  forward-fills and scales.  The upstream client (pytrends) is out of scope
  of the repository and is modelled as a pair of value functions; pandas
  frames are modelled as association lists keyed by date, and pandas float
  columns are modelled with exact rationals plus an explicit marker `FVal.undef`
  standing for any non-finite float (NaN or infinity).

Dates are triples of naturals ordered lexicographically; machine integers do
not overflow in the source (Python), so no modular arithmetic is needed.
-/

/-- A calendar date `(year, month, day)`, as produced by `datetime.date`. -/
structure Date where
  y : Nat
  m : Nat
  d : Nat
deriving DecidableEq, Repr

/-- Lexicographic strict order on dates, as `datetime.date` comparison. -/
def Date.lt (a b : Date) : Prop :=
  a.y < b.y ∨ (a.y = b.y ∧ (a.m < b.m ∨ (a.m = b.m ∧ a.d < b.d)))

/-- Lexicographic order on dates, as `datetime.date` comparison. -/
def Date.le (a b : Date) : Prop :=
  a.y < b.y ∨ (a.y = b.y ∧ (a.m < b.m ∨ (a.m = b.m ∧ a.d ≤ b.d)))

instance : LT Date := ⟨Date.lt⟩

instance : LE Date := ⟨Date.le⟩

instance instDecidableDateLt (a b : Date) : Decidable (a < b) :=
  inferInstanceAs (Decidable (a.y < b.y ∨ (a.y = b.y ∧ (a.m < b.m ∨ (a.m = b.m ∧ a.d < b.d)))))

instance instDecidableDateLe (a b : Date) : Decidable (a ≤ b) :=
  inferInstanceAs (Decidable (a.y < b.y ∨ (a.y = b.y ∧ (a.m < b.m ∨ (a.m = b.m ∧ a.d ≤ b.d)))))

/-- Leap-year test, as in Python's `calendar` module. -/
def isLeapYear (y : Nat) : Bool :=
  (y % 4 == 0 && y % 100 != 0) || y % 400 == 0

/-- Number of days of month `m` of year `y`: `calendar.monthrange(y, m)[1]`
(dailydata.py line 105). -/
def monthrange (y m : Nat) : Nat :=
  if m = 2 then (if isLeapYear y then 29 else 28)
  else if m = 4 ∨ m = 6 ∨ m = 9 ∨ m = 11 then 30
  else 31

/-- `d` is a date `datetime.date` would accept. -/
def validDate (dt : Date) : Prop :=
  1 ≤ dt.m ∧ dt.m ≤ 12 ∧ 1 ≤ dt.d ∧ dt.d ≤ monthrange dt.y dt.m

instance (dt : Date) : Decidable (validDate dt) :=
  inferInstanceAs (Decidable (1 ≤ dt.m ∧ dt.m ≤ 12 ∧ 1 ≤ dt.d ∧ dt.d ≤ monthrange dt.y dt.m))

/-- Index of a date's calendar month on the time line (months since year 0). -/
def monthIdx (dt : Date) : Nat := 12 * dt.y + (dt.m - 1)

/-- First day of the calendar month with index `i`. -/
def firstOfMonth (i : Nat) : Date := ⟨i / 12, i % 12 + 1, 1⟩

/-- Last day of the calendar month with index `i`
(`lastDateOfMonth` in dailydata.py lines 104-105). -/
def lastDateOfMonth (i : Nat) : Date :=
  ⟨i / 12, i % 12 + 1, monthrange (i / 12) (i % 12 + 1)⟩

/-- `dt + timedelta(days=1)` for a valid date (dailydata.py line 110). -/
def addOneDay (dt : Date) : Date :=
  if dt.d < monthrange dt.y dt.m then ⟨dt.y, dt.m, dt.d + 1⟩
  else if dt.m < 12 then ⟨dt.y, dt.m + 1, 1⟩
  else ⟨dt.y + 1, 1, 1⟩

/-- One more than the index of the last calendar month that the loop of
dailydata.py lines 103-112 fetches: the loop runs while `current < stop`, and
`current` is always the first day of a month, so month `i` is fetched exactly
when `firstOfMonth i < stop`, i.e. when `i < monthBound stop`. -/
def monthBound (stop : Date) : Nat :=
  if 1 < stop.d then monthIdx stop + 1 else monthIdx stop

/-- The `while current < stop_date` loop of dailydata.py lines 103-112, as a
function of the month index held by `current` (which is always the first day
of a month: it starts at January 1st and is advanced by
`lastDateOfMonth + timedelta(days=1)`, see `addOneDay_lastDateOfMonth`).
The `fuel` argument is an upper bound on the number of remaining iterations
(one per month); `dailyFetchLoop` instantiates it exactly. -/
def dailyFetchLoopAux : Nat → Nat → Date → List Nat
  | 0, _, _ => []
  | fuel + 1, i, stop =>
      if firstOfMonth i < stop then i :: dailyFetchLoopAux fuel (i + 1) stop else []

/-- Month indices fetched by the loop of dailydata.py lines 103-112, in
iteration order. -/
def dailyFetchLoop (i : Nat) (stop : Date) : List Nat :=
  dailyFetchLoopAux (monthBound stop - i) i stop

/-- The time ranges passed to the daily fetches: iteration with `current` at
month `i` fetches `getTimeframe(current, lastDateOfMonth)`
(dailydata.py line 106). -/
def fetchRanges (start stop : Date) : List (Date × Date) :=
  (dailyFetchLoop (monthIdx start) stop).map (fun i => (firstOfMonth i, lastDateOfMonth i))

/-- The days of the calendar month with index `i`, in ascending order. -/
def monthDays (i : Nat) : List Date :=
  (List.range' 1 (monthrange (i / 12) (i % 12 + 1))).map
    (fun dd => ⟨i / 12, i % 12 + 1, dd⟩)

/-- The upstream client (pytrends), out of scope of the repository: a stub
producing the daily value of each date and the monthly value of each month.
A request for a one-month time range returns one observation per day of the
range; the request for `[2004-01-01, stop_date]` returns one observation per
month, keyed by the first day of the month. -/
structure Upstream where
  dailyVal : Date → ℚ
  monthlyVal : Nat → ℚ

/-- `pd.concat(results.values())` of the per-month daily frames
(dailydata.py line 115), with the `isPartial` column dropped: one row per
fetched day, keyed by date, in fetch order. -/
def dailyRows (u : Upstream) (start stop : Date) : List (Date × ℚ) :=
  (dailyFetchLoop (monthIdx start) stop).flatMap
    (fun i => (monthDays i).map (fun dt => (dt, u.dailyVal dt)))

/-- The dates of the rows of `dailyRows`. -/
def daysList (start stop : Date) : List Date :=
  (dailyFetchLoop (monthIdx start) stop).flatMap monthDays

/-- The mean that `resample('M').mean()` computes for the bucket of month `i`
(dailydata.py line 117): the arithmetic mean of the values of the rows whose
date lies in month `i`. -/
def resampleMeanM (rows : List (Date × ℚ)) (i : Nat) : ℚ :=
  let xs := (rows.filter (fun r => decide (monthIdx r.1 = i))).map Prod.snd
  xs.sum / (xs.length : ℚ)

/-- `daily.resample('M').mean()` (dailydata.py line 117): one row per month of
the span of `daily`, keyed by the last calendar day of the month. -/
def dailyaverageRaw (u : Upstream) (start stop : Date) : List (Date × ℚ) :=
  (dailyFetchLoop (monthIdx start) stop).map
    (fun i => (lastDateOfMonth i, resampleMeanM (dailyRows u start stop) i))

/-- `dailyaverage.index = dailyaverage.index.values.astype('<M8[M]')`
(dailydata.py line 119): truncating a date to month precision rekeys each row
at the first day of its month. -/
def dailyaverage (u : Upstream) (start stop : Date) : List (Date × ℚ) :=
  (dailyaverageRaw u start stop).map (fun p => (⟨p.1.y, p.1.m, 1⟩, p.2))

/-- pandas index alignment on a frame with unique index: the value a column
keyed by `l` contributes at index `k`. -/
def colLookup (k : Date) : List (Date × ℚ) → Option ℚ
  | [] => none
  | (dt, v) :: rest => if dt = k then some v else colLookup k rest

/-- `Series.ffill` (dailydata.py lines 121 and 126): each missing entry takes
the nearest earlier present value, `acc` being the value carried in from
before the list. -/
def ffill (acc : Option ℚ) : List (Date × Option ℚ) → List (Date × Option ℚ)
  | [] => []
  | (dt, some v) :: rest => (dt, some v) :: ffill (some v) rest
  | (dt, none) :: rest => (dt, acc) :: ffill acc rest

/-- The monthly frame fetched in one go for the time range
`getTimeframe(date(2004, 1, 1), stop_date)` (dailydata.py lines 96-97):
one row per calendar month from January 2004 to the month of `stop`,
keyed by the first day of the month. -/
def monthlyFetched (u : Upstream) (stop : Date) : List (Date × ℚ) :=
  (List.range' (monthIdx ⟨2004, 1, 1⟩) (monthIdx stop + 1 - monthIdx ⟨2004, 1, 1⟩)).map
    (fun i => (firstOfMonth i, u.monthlyVal i))

/-- The `[start_date:stop_date]` slice of the monthly frame
(dailydata.py line 97): both endpoints inclusive. -/
def monthlySliced (u : Upstream) (start stop : Date) : List (Date × ℚ) :=
  (monthlyFetched u stop).filter (fun r => decide (start ≤ r.1 ∧ r.1 ≤ stop))

/-- The `{word}_{geo}_avg` column before forward filling (dailydata.py
line 120): the row of `dailyaverage` with the same date, when present. -/
def avgColRaw (u : Upstream) (start stop : Date) : List (Date × Option ℚ) :=
  (dailyRows u start stop).map (fun r => (r.1, colLookup r.1 (dailyaverage u start stop)))

/-- The `{word}_{geo}_avg` column after `ffill` (dailydata.py line 121). -/
def avgCol (u : Upstream) (start stop : Date) : List (Date × Option ℚ) :=
  ffill none (avgColRaw u start stop)

/-- The `{word}_{geo}_monthly` column produced by the left join of
dailydata.py lines 122-123: the row of the sliced monthly frame with the same
date, when present. -/
def monthlyColRaw (u : Upstream) (start stop : Date) : List (Date × Option ℚ) :=
  (dailyRows u start stop).map (fun r => (r.1, colLookup r.1 (monthlySliced u start stop)))

/-- The `{word}_{geo}_monthly` column after `ffill` (dailydata.py line 126). -/
def monthlyCol (u : Upstream) (start stop : Date) : List (Date × Option ℚ) :=
  ffill none (monthlyColRaw u start stop)

/-- A pandas float cell: either an exact finite value or `undef`, the marker
for any non-finite float (NaN or an infinity).  The source never inspects
non-finite values, so collapsing them loses nothing the claims mention. -/
inductive FVal where
  | fin : ℚ → FVal
  | undef : FVal
deriving DecidableEq, Repr

/-- Float division of two possibly-missing cells (dailydata.py line 127):
a missing operand gives NaN, division by zero gives an infinity or NaN; both
are `undef`. -/
def fdivO : Option ℚ → Option ℚ → FVal
  | some a, some b => if b = 0 then FVal.undef else FVal.fin (a / b)
  | _, _ => FVal.undef

/-- Float multiplication of a finite value by a cell (dailydata.py line 128):
any non-finite factor makes the product non-finite (NaN, or an infinity whose
sign the source never inspects). -/
def fmulU (q : ℚ) : FVal → FVal
  | FVal.fin s => FVal.fin (q * s)
  | FVal.undef => FVal.undef

/-- A possibly-missing cell read back as a float column entry. -/
def toFVal : Option ℚ → FVal
  | some q => FVal.fin q
  | none => FVal.undef

/-- One row of the frame returned by `getDailyData` (after dropping
`isPartial` and the `_avg` column, dailydata.py line 130): the date index,
the `{word}_{geo}_unscaled`, `{word}_{geo}_monthly`, `scale` and
`{word}_{geo}` (scaled) columns. -/
structure Row where
  ts : Date
  unscaled : ℚ
  monthly : FVal
  scale : FVal
  scaled : FVal
deriving DecidableEq, Repr

/-- Rows of the `complete` frame (dailydata.py lines 122-128), assembled
positionally from the daily rows and the two aligned columns (the join and
the column assignments preserve the row order of `daily`):
`scale = monthly / avg` (line 127) and `scaled = unscaled * scale`
(line 128). -/
def mkRows : List (Date × ℚ) → List (Date × Option ℚ) → List (Date × Option ℚ) → List Row
  | (dt, v) :: ds, (_, av) :: avs, (_, mo) :: mos =>
      { ts := dt, unscaled := v, monthly := toFVal mo,
        scale := fdivO mo av, scaled := fmulU v (fdivO mo av) } :: mkRows ds avs mos
  | _, _, _ => []

/-- The mean of the `unscaled` column of a result table over the rows of
month `i` ("the monthly average of the unscaled daily values for that
month"). -/
def tableMonthAvg (tbl : List Row) (i : Nat) : ℚ :=
  resampleMeanM (tbl.map (fun r => (r.ts, r.unscaled))) i

/-- `date(start_year, 1, 1)` (dailydata.py line 85). -/
def startDateOf (start_year : Nat) : Date := ⟨start_year, 1, 1⟩

/-- `min([date(stop_year, 12, 31), date.today()])` (dailydata.py line 87). -/
def stopDateOf (stop_year : Nat) (today : Date) : Date :=
  if (⟨stop_year, 12, 31⟩ : Date) ≤ today then ⟨stop_year, 12, 31⟩ else today

/-- `getDailyData` (dailydata.py lines 36-131) under a stub upstream, with
`date.today()` made explicit.  When the month loop performs no iteration the
`results` dict is empty and `pd.concat` at line 115 raises `ValueError`;
this is the `none` case. -/
def getDailyData (u : Upstream) (start_year stop_year : Nat) (today : Date) :
    Option (List Row) :=
  if dailyFetchLoop (monthIdx (startDateOf start_year)) (stopDateOf stop_year today) = []
  then none
  else some (mkRows
    (dailyRows u (startDateOf start_year) (stopDateOf stop_year today))
    (avgCol u (startDateOf start_year) (stopDateOf stop_year today))
    (monthlyCol u (startDateOf start_year) (stopDateOf stop_year today)))

/-- The monthly column value `getDailyData` ends up attaching to every day of
month `i`: present exactly for months from January 2004 on (the monthly
request is anchored at 2004-01-01, so earlier months stay NaN). -/
def monthlyAt (u : Upstream) (i : Nat) : Option ℚ :=
  if monthIdx ⟨2004, 1, 1⟩ ≤ i then some (u.monthlyVal i) else none

/-- The row that `getDailyData` is proven to produce for day `dt` (see
`getDailyData_eq`): the unscaled value is the upstream daily value, the
monthly column carries `monthlyAt`, the scale divides it by the resampled
month mean, and the scaled value multiplies the unscaled value by the
scale. -/
def rowOf (u : Upstream) (start stop : Date) (dt : Date) : Row :=
  { ts := dt, unscaled := u.dailyVal dt,
    monthly := toFVal (monthlyAt u (monthIdx dt)),
    scale := fdivO (monthlyAt u (monthIdx dt))
      (some (resampleMeanM (dailyRows u start stop) (monthIdx dt))),
    scaled := fmulU (u.dailyVal dt)
      (fdivO (monthlyAt u (monthIdx dt))
        (some (resampleMeanM (dailyRows u start stop) (monthIdx dt)))) }

/-- Claim C1 invariant: every row of the result satisfies
`scaled = unscaled * scale` and `scale = monthly value of the row's month
divided by the mean of the unscaled column over that month's rows`. -/
def scaleInvariant (u : Upstream) (sy ty : Nat) (today : Date) : Prop :=
  ∀ row ∈ (getDailyData u sy ty today).getD [],
    row.unscaled = u.dailyVal row.ts ∧
    row.monthly = FVal.fin (u.monthlyVal (monthIdx row.ts)) ∧
    row.scale = fdivO (some (u.monthlyVal (monthIdx row.ts)))
      (some (tableMonthAvg ((getDailyData u sy ty today).getD []) (monthIdx row.ts))) ∧
    row.scaled = fmulU row.unscaled row.scale

/-- Claim C2 property: the call returns a table with exactly one row per
calendar day of `[start_date, stop_date)` and no duplicate timestamps. -/
def oneRowPerDay (u : Upstream) (sy ty : Nat) (today : Date) : Prop :=
  ∃ tbl, getDailyData u sy ty today = some tbl ∧
    (∀ d : Date, validDate d → startDateOf sy ≤ d → d < stopDateOf ty today →
      tbl.countP (fun r => decide (r.ts = d)) = 1) ∧
    (tbl.map Row.ts).Pairwise (fun a b => a ≠ b)

/-- Claim C5 property, as stated: no fetched daily time range extends before
`start_date` or after `stop_date`. -/
def monthEnumClipped (sy ty : Nat) (today : Date) : Prop :=
  ∀ r ∈ fetchRanges (startDateOf sy) (stopDateOf ty today),
    startDateOf sy ≤ r.1 ∧ r.2 ≤ stopDateOf ty today

/-- What the month enumeration actually does: one fetch per calendar month
with first day in `[start_date, stop_date)`, in ascending order, each fetch
covering the month up to its own last day (which can lie after
`stop_date`). -/
def monthEnumActual (sy ty : Nat) (today : Date) : Prop :=
  fetchRanges (startDateOf sy) (stopDateOf ty today) =
    (List.range' (monthIdx (startDateOf sy))
        (monthBound (stopDateOf ty today) - monthIdx (startDateOf sy))).map
      (fun i => (firstOfMonth i, lastDateOfMonth i)) ∧
  (∀ r ∈ fetchRanges (startDateOf sy) (stopDateOf ty today),
    startDateOf sy ≤ r.1 ∧ r.1 < stopDateOf ty today ∧
      r.2 = lastDateOfMonth (monthIdx r.1)) ∧
  (fetchRanges (startDateOf sy) (stopDateOf ty today)).Pairwise (fun a b => a.1 < b.1)

/-- Claim C7 property, as stated: an empty window yields an empty table and
no error. -/
def emptyWindowOk (u : Upstream) (sy ty : Nat) (today : Date) : Prop :=
  getDailyData u sy ty today = some []

/-- Claim C8 property: rows of a month whose unscaled daily values average to
zero carry a non-finite scale and a non-finite scaled value. -/
def zeroMonthUndef (u : Upstream) (sy ty : Nat) (today : Date) : Prop :=
  ∀ row ∈ (getDailyData u sy ty today).getD [],
    resampleMeanM (dailyRows u (startDateOf sy) (stopDateOf ty today)) (monthIdx row.ts) = 0 →
    row.scale = FVal.undef ∧ row.scaled = FVal.undef

/-- Claim C6 property: the resampled means are keyed at month ends before the
index truncation and at month starts after it, and after forward filling
every row of the daily frame carries its own month's mean and its own month's
monthly value. -/
def monthAlignment (u : Upstream) (sy ty : Nat) (today : Date) : Prop :=
  (∀ p ∈ dailyaverageRaw u (startDateOf sy) (stopDateOf ty today),
    p.1.d = monthrange p.1.y p.1.m) ∧
  (∀ p ∈ dailyaverage u (startDateOf sy) (stopDateOf ty today),
    p.1.d = 1 ∧
      p.2 = resampleMeanM (dailyRows u (startDateOf sy) (stopDateOf ty today)) (monthIdx p.1)) ∧
  (∀ p ∈ avgCol u (startDateOf sy) (stopDateOf ty today),
    p.2 = some (resampleMeanM (dailyRows u (startDateOf sy) (stopDateOf ty today)) (monthIdx p.1))) ∧
  (∀ p ∈ monthlyCol u (startDateOf sy) (stopDateOf ty today),
    p.2 = some (u.monthlyVal (monthIdx p.1)))

/-- The outcome of one upstream `build_payload` attempt inside `_fetchData`
(dailydata.py lines 24-25): success (carrying the series that
`interest_over_time` then returns), the rate-limit `ResponseError`, or any
other exception. -/
inductive FetchOutcome where
  | ok : ℚ → FetchOutcome
  | rateLimited : FetchOutcome
  | fatal : Nat → FetchOutcome
deriving DecidableEq, Repr

/-- How a run of `_fetchData` ends: returning a series, an uncaught exception
propagating, or never exiting the loop (every attempt rate-limited). -/
inductive FetchResult where
  | success : ℚ → FetchResult
  | raised : Nat → FetchResult
  | diverged : FetchResult
deriving DecidableEq, Repr

/-- The `while not fetched` loop of dailydata.py lines 22-33 run against a
list of upstream outcomes, one per attempt: `attempts` counts caught
`ResponseError`s so far; each one sleeps `300 * attempts` seconds
(line 27) and increments the counter (line 30).  Returns the list of sleeps
performed and how the run ends; an exhausted outcome list means the loop
never exits (modelling indefinite retry). -/
def fetchGo : Nat → List FetchOutcome → List Nat × FetchResult
  | _, [] => ([], FetchResult.diverged)
  | attempts, FetchOutcome.rateLimited :: rest =>
      let r := fetchGo (attempts + 1) rest
      (300 * attempts :: r.1, r.2)
  | _, FetchOutcome.ok s :: _ => ([], FetchResult.success s)
  | _, FetchOutcome.fatal e :: _ => ([], FetchResult.raised e)

/-- `_fetchData` (dailydata.py lines 20-33): the loop starting with
`attempts = 0`. -/
def _fetchData (outcomes : List FetchOutcome) : List Nat × FetchResult :=
  fetchGo 0 outcomes

/-- The support of `randrange(10, 10 * wait_time) / 10` (dailydata.py
line 112).  Python's `randrange` accepts a float stop only when it is
integral (`int(stop) != stop` raises `ValueError: non-integer stop`), and
raises `ValueError: empty range` unless `10 < stop`; otherwise it draws an
integer uniformly from `[10, stop)`.  `none` models the raised error. -/
def pacingDelays (wait_time : ℚ) : Option (List ℚ) :=
  if (10 * wait_time).den = 1 ∧ 10 < (10 * wait_time).num then
    some ((List.range' 10 ((10 * wait_time).num.toNat - 10)).map
      (fun (k : Nat) => (k : ℚ) / 10))
  else none

/-- Claim C9 property, as stated: the pacing delay is well defined and lies
in `[1, wait_time]`. -/
def pacingOk (wait_time : ℚ) : Prop :=
  ∃ L, pacingDelays wait_time = some L ∧ L ≠ [] ∧ ∀ x ∈ L, 1 ≤ x ∧ x ≤ wait_time

/-- A deterministic stub upstream: constant daily value 10, constant monthly
value 5. -/
def uStub : Upstream := ⟨fun _ => 10, fun _ => 5⟩

/-- A stub upstream whose January daily values are all zero (and 7 elsewhere),
with constant monthly value 5: the degenerate-month example of the spec. -/
def uZero : Upstream := ⟨fun dt => if dt.m = 1 then 0 else 7, fun _ => 5⟩

/-! ### Date arithmetic -/

theorem date_lt_iff (a b : Date) :
    a < b ↔ (a.y < b.y ∨ (a.y = b.y ∧ (a.m < b.m ∨ (a.m = b.m ∧ a.d < b.d)))) :=
  Iff.rfl

theorem date_le_iff (a b : Date) :
    a ≤ b ↔ (a.y < b.y ∨ (a.y = b.y ∧ (a.m < b.m ∨ (a.m = b.m ∧ a.d ≤ b.d)))) :=
  Iff.rfl

theorem monthrange_ge (y m : Nat) : 28 ≤ monthrange y m := by
  unfold monthrange
  split
  · split <;> omega
  · split <;> omega

theorem date_le_refl (a : Date) : a ≤ a := by
  rw [date_le_iff]; omega

theorem date_le_of_not_le {a b : Date} (h : ¬ a ≤ b) : b ≤ a := by
  rw [date_le_iff] at h ⊢; omega

theorem date_le_of_lt {a b : Date} (h : a < b) : a ≤ b := by
  rw [date_lt_iff] at h; rw [date_le_iff]; omega

theorem date_not_lt_of_le {a b : Date} (h : a ≤ b) : ¬ b < a := by
  rw [date_le_iff] at h; rw [date_lt_iff]; omega

theorem monthIdx_firstOfMonth (i : Nat) : monthIdx (firstOfMonth i) = i := by
  simp only [monthIdx, firstOfMonth]; omega

theorem firstOfMonth_monthIdx {dt : Date} (h1 : 1 ≤ dt.m) (h2 : dt.m ≤ 12)
    (hd : dt.d = 1) : firstOfMonth (monthIdx dt) = dt := by
  cases dt with
  | mk a b c =>
    simp only [firstOfMonth, monthIdx, Date.mk.injEq] at *
    omega

theorem addOneDay_lastDateOfMonth (i : Nat) :
    addOneDay (lastDateOfMonth i) = firstOfMonth (i + 1) := by
  simp only [addOneDay, lastDateOfMonth, firstOfMonth]
  rw [if_neg (lt_irrefl _)]
  by_cases h : i % 12 + 1 < 12
  · rw [if_pos h]
    simp only [Date.mk.injEq, and_true]
    omega
  · rw [if_neg h]
    simp only [Date.mk.injEq, and_true]
    omega

theorem lt_monthBound_of_firstOfMonth_lt {i : Nat} {stop : Date}
    (h : firstOfMonth i < stop) : i < monthBound stop := by
  rw [date_lt_iff] at h
  simp only [firstOfMonth] at h
  unfold monthBound monthIdx
  split <;> omega

theorem firstOfMonth_lt_of_lt_monthBound {i : Nat} {stop : Date}
    (hm1 : 1 ≤ stop.m) (hm2 : stop.m ≤ 12) (h : i < monthBound stop) :
    firstOfMonth i < stop := by
  rw [date_lt_iff]
  simp only [firstOfMonth]
  unfold monthBound monthIdx at h
  split at h <;> omega

theorem monthBound_le (stop : Date) : monthBound stop ≤ monthIdx stop + 1 := by
  unfold monthBound; split <;> omega

/-! ### The month loop -/

theorem dailyFetchLoopAux_eq (stop : Date) (hm1 : 1 ≤ stop.m) (hm2 : stop.m ≤ 12) :
    ∀ fuel i, monthBound stop - i ≤ fuel →
      dailyFetchLoopAux fuel i stop = List.range' i (monthBound stop - i) := by
  intro fuel
  induction fuel with
  | zero =>
    intro i h
    have h0 : monthBound stop - i = 0 := by omega
    rw [h0]; rfl
  | succ n ih =>
    intro i h
    unfold dailyFetchLoopAux
    by_cases hc : firstOfMonth i < stop
    · rw [if_pos hc]
      have hib : i < monthBound stop := lt_monthBound_of_firstOfMonth_lt hc
      have h1 : monthBound stop - i = (monthBound stop - (i + 1)) + 1 := by omega
      rw [h1, List.range'_succ, ih (i + 1) (by omega)]
    · rw [if_neg hc]
      have hni : ¬ i < monthBound stop := fun hlt =>
        hc (firstOfMonth_lt_of_lt_monthBound hm1 hm2 hlt)
      have h0 : monthBound stop - i = 0 := by omega
      rw [h0]; rfl

theorem dailyFetchLoop_eq (i : Nat) (stop : Date) (hm1 : 1 ≤ stop.m) (hm2 : stop.m ≤ 12) :
    dailyFetchLoop i stop = List.range' i (monthBound stop - i) :=
  dailyFetchLoopAux_eq stop hm1 hm2 _ i (Nat.le_refl _)

theorem validDate_stopDateOf (ty : Nat) (today : Date) (hvt : validDate today) :
    validDate (stopDateOf ty today) := by
  unfold stopDateOf
  split
  · simp only [validDate, monthrange]
    norm_num
  · exact hvt

/-! ### Days of a month -/

theorem mem_monthDays {dt : Date} {i : Nat} :
    dt ∈ monthDays i ↔
      (dt.y = i / 12 ∧ dt.m = i % 12 + 1 ∧ 1 ≤ dt.d ∧
        dt.d ≤ monthrange (i / 12) (i % 12 + 1)) := by
  cases dt with
  | mk a b c =>
    simp only [monthDays, List.mem_map, List.mem_range'_1, Date.mk.injEq]
    constructor
    · rintro ⟨dd, hdd, h1, h2, h3⟩
      omega
    · rintro ⟨h1, h2, h3, h4⟩
      exact ⟨c, by omega, by omega, by omega, rfl⟩

theorem monthIdx_of_mem_monthDays {dt : Date} {i : Nat} (h : dt ∈ monthDays i) :
    monthIdx dt = i := by
  rw [mem_monthDays] at h
  unfold monthIdx
  omega

theorem monthDays_eq_cons (i : Nat) :
    monthDays i = firstOfMonth i ::
      (List.range' 2 (monthrange (i / 12) (i % 12 + 1) - 1)).map
        (fun dd => ⟨i / 12, i % 12 + 1, dd⟩) := by
  unfold monthDays firstOfMonth
  have h : monthrange (i / 12) (i % 12 + 1) = (monthrange (i / 12) (i % 12 + 1) - 1) + 1 := by
    have := monthrange_ge (i / 12) (i % 12 + 1)
    omega
  rw [h, List.range'_succ]
  rfl

theorem nodup_monthDays (i : Nat) : (monthDays i).Nodup := by
  unfold monthDays
  apply List.Nodup.map
  · intro a b hab
    simpa using congrArg Date.d hab
  · exact List.nodup_range' _ _

theorem pairwise_lt_range'_one : ∀ (n s : Nat), (List.range' s n).Pairwise (fun a b => a < b)
  | 0, _ => by simp
  | n + 1, s => by
    rw [List.range'_succ, List.pairwise_cons]
    refine ⟨fun b hb => ?_, pairwise_lt_range'_one n (s + 1)⟩
    rw [List.mem_range'_1] at hb
    omega

theorem pairwise_lt_monthDays (i : Nat) : (monthDays i).Pairwise (fun a b => a < b) := by
  unfold monthDays
  refine List.Pairwise.map _ ?_ (pairwise_lt_range'_one _ 1)
  intro a b hab
  exact Or.inr ⟨rfl, Or.inr ⟨rfl, hab⟩⟩

/-! ### Column lookup -/

theorem colLookup_map_firstOfMonth (i : Nat) (l : List Nat) (g : Nat → ℚ) :
    colLookup (firstOfMonth i) (l.map (fun j => (firstOfMonth j, g j))) =
      if i ∈ l then some (g i) else none := by
  induction l with
  | nil => simp [colLookup]
  | cons j rest ih =>
    simp only [List.map_cons, colLookup]
    by_cases hj : j = i
    · subst hj
      simp
    · have hne : firstOfMonth j ≠ firstOfMonth i := by
        intro he
        have := congrArg monthIdx he
        rw [monthIdx_firstOfMonth, monthIdx_firstOfMonth] at this
        exact hj this
      rw [if_neg hne, ih]
      have hmem : (i ∈ j :: rest) ↔ (i ∈ rest) := by
        rw [List.mem_cons]
        constructor
        · rintro (h | h)
          · exact absurd h.symm hj
          · exact h
        · exact Or.inr
      by_cases hi : i ∈ rest
      · rw [if_pos hi, if_pos (hmem.mpr hi)]
      · rw [if_neg hi, if_neg (fun hc => hi (hmem.mp hc))]

theorem colLookup_eq_none (k : Date) (l : List (Date × ℚ))
    (hl : ∀ p ∈ l, p.1.d = 1) (hk : k.d ≠ 1) : colLookup k l = none := by
  induction l with
  | nil => rfl
  | cons p rest ih =>
    obtain ⟨pd, pv⟩ := p
    have hpd : pd.d = 1 := hl (pd, pv) (List.mem_cons_self _ _)
    have hne : ¬ (pd = k) := by
      intro he
      subst he
      exact hk hpd
    simp only [colLookup]
    rw [if_neg hne]
    exact ih (fun q hq => hl q (List.mem_cons_of_mem _ hq))

/-! ### Forward fill -/

theorem ffill_const_tail (acc : Option ℚ) (tail rest : List (Date × Option ℚ))
    (ht : ∀ p ∈ tail, p.2 = none) :
    ffill acc (tail ++ rest) = tail.map (fun p => (p.1, acc)) ++ ffill acc rest := by
  induction tail with
  | nil => rfl
  | cons p tl ih =>
    obtain ⟨pd, pv⟩ := p
    have hpv : pv = none := ht (pd, pv) (List.mem_cons_self _ _)
    subst hpv
    simp only [List.cons_append, ffill, List.map_cons, List.append_eq]
    rw [ih (fun q hq => ht q (List.mem_cons_of_mem _ hq))]

theorem ffill_seg_some (acc : Option ℚ) (d0 : Date) (v : ℚ)
    (tail rest : List (Date × Option ℚ)) (ht : ∀ p ∈ tail, p.2 = none) :
    ffill acc (((d0, some v) :: tail) ++ rest) =
      ((d0, some v) :: tail.map (fun p => (p.1, some v))) ++ ffill (some v) rest := by
  simp only [List.cons_append, ffill, List.append_eq]
  rw [ffill_const_tail (some v) tail rest ht]

theorem ffill_seg_none (d0 : Date) (tail rest : List (Date × Option ℚ))
    (ht : ∀ p ∈ tail, p.2 = none) :
    ffill none (((d0, none) :: tail) ++ rest) =
      ((d0, none) :: tail.map (fun p => (p.1, none))) ++ ffill none rest := by
  simp only [List.cons_append, ffill, List.append_eq]
  rw [ffill_const_tail none tail rest ht]

/-! ### Shape of the daily frame and of the aligned columns -/

theorem dailyRows_eq_map (u : Upstream) (start stop : Date) :
    dailyRows u start stop =
      (daysList start stop).map (fun dt => (dt, u.dailyVal dt)) := by
  unfold dailyRows daysList
  rw [List.map_flatMap]

theorem dailyaverage_eq (u : Upstream) (start stop : Date) :
    dailyaverage u start stop =
      (dailyFetchLoop (monthIdx start) stop).map
        (fun i => (firstOfMonth i, resampleMeanM (dailyRows u start stop) i)) := by
  unfold dailyaverage dailyaverageRaw
  rw [List.map_map]
  apply List.map_congr_left
  intro i _
  rfl

theorem flatMap_months_pointwise {β : Type} (F : Nat → Date → β) (G : Date → β)
    (l : List Nat) (h : ∀ t ∈ l, ∀ dt ∈ monthDays t, F t dt = G dt) :
    l.flatMap (fun t => (monthDays t).map (F t)) = (l.flatMap monthDays).map G := by
  induction l with
  | nil => rfl
  | cons t rest ih =>
    rw [List.flatMap_cons, List.flatMap_cons, List.map_append]
    congr 1
    · exact List.map_congr_left (h t (List.mem_cons_self _ _))
    · exact ih (fun t' ht' => h t' (List.mem_cons_of_mem _ ht'))

theorem ffill_col_core (c : Date → Option ℚ) (v : Nat → Option ℚ) :
    ∀ (n k : Nat) (acc : Option ℚ),
      (∀ t, k ≤ t → t < k + n → c (firstOfMonth t) = v t) →
      (∀ t, k ≤ t → t < k + n → ∀ dt ∈ monthDays t, dt.d ≠ 1 → c dt = none) →
      (∀ t t', k ≤ t → t ≤ t' → t' < k + n → v t ≠ none → v t' ≠ none) →
      (0 < n → v k = none → acc = none) →
      ffill acc ((List.range' k n).flatMap (fun t => (monthDays t).map (fun dt => (dt, c dt)))) =
        (List.range' k n).flatMap (fun t => (monthDays t).map (fun dt => (dt, v t))) := by
  intro n
  induction n with
  | zero =>
    intro k acc _ _ _ _
    rfl
  | succ n ih =>
    intro k acc hhead htail hmono hacc
    rw [List.range'_succ, List.flatMap_cons, List.flatMap_cons]
    have htl : ∀ p ∈ ((List.range' 2 (monthrange (k / 12) (k % 12 + 1) - 1)).map
        (fun dd => (⟨k / 12, k % 12 + 1, dd⟩ : Date))).map (fun dt => (dt, c dt)), p.2 = none := by
      intro p hp
      rw [List.mem_map] at hp
      obtain ⟨dt, hdt, rfl⟩ := hp
      rw [List.mem_map] at hdt
      obtain ⟨dd, hdd, rfl⟩ := hdt
      rw [List.mem_range'_1] at hdd
      have hmr := monthrange_ge (k / 12) (k % 12 + 1)
      refine htail k (Nat.le_refl _) (by omega) _ ?_ (by simp; omega)
      rw [mem_monthDays]
      simp
      omega
    have hc0 : c (firstOfMonth k) = v k := hhead k (Nat.le_refl _) (by omega)
    rw [monthDays_eq_cons k, List.map_cons, List.map_cons, hc0]
    cases hv0 : v k with
    | some a =>
      rw [ffill_seg_some acc _ a _ _ htl]
      rw [ih (k + 1) (some a)
        (fun t h1 h2 => hhead t (by omega) (by omega))
        (fun t h1 h2 => htail t (by omega) (by omega))
        (fun t t' h1 h2 h3 => hmono t t' (by omega) h2 (by omega))
        (fun hn hv1 => absurd (hmono k (k + 1) (Nat.le_refl _) (by omega) (by omega)
          (by rw [hv0]; exact Option.some_ne_none a)) (fun hne => hne hv1))]
      rw [List.map_map]
      rfl
    | none =>
      have hacc0 : acc = none := hacc (by omega) hv0
      subst hacc0
      rw [ffill_seg_none _ _ _ htl]
      rw [ih (k + 1) none
        (fun t h1 h2 => hhead t (by omega) (by omega))
        (fun t h1 h2 => htail t (by omega) (by omega))
        (fun t t' h1 h2 h3 => hmono t t' (by omega) h2 (by omega))
        (fun _ _ => rfl)]
      rw [List.map_map]
      rfl

theorem monthIdx_startDateOf (sy : Nat) : monthIdx (startDateOf sy) = 12 * sy := rfl

theorem startDateOf_le_firstOfMonth {sy t : Nat} (h : monthIdx (startDateOf sy) ≤ t) :
    startDateOf sy ≤ firstOfMonth t := by
  rw [date_le_iff]
  rw [monthIdx_startDateOf] at h
  simp only [startDateOf, firstOfMonth]
  omega

theorem monthlySliced_keys (u : Upstream) (start stop : Date) :
    ∀ p ∈ monthlySliced u start stop, p.1.d = 1 := by
  unfold monthlySliced monthlyFetched
  rw [List.filter_map]
  intro p hp
  rw [List.mem_map] at hp
  obtain ⟨j, _, rfl⟩ := hp
  rfl

theorem monthlySliced_lookup (u : Upstream) (sy ty : Nat) (today : Date)
    (hvt : validDate today) {t : Nat} (hst : monthIdx (startDateOf sy) ≤ t)
    (hlt : t < monthBound (stopDateOf ty today)) :
    colLookup (firstOfMonth t) (monthlySliced u (startDateOf sy) (stopDateOf ty today)) =
      monthlyAt u t := by
  obtain ⟨hm1, hm2, hd1, hd2⟩ := validDate_stopDateOf ty today hvt
  have hb := monthBound_le (stopDateOf ty today)
  have h2004 : monthIdx (⟨2004, 1, 1⟩ : Date) = 24048 := rfl
  unfold monthlySliced monthlyFetched
  rw [List.filter_map, colLookup_map_firstOfMonth]
  unfold monthlyAt
  by_cases h4 : monthIdx (⟨2004, 1, 1⟩ : Date) ≤ t
  · have hmem : t ∈ (List.range' (monthIdx (⟨2004, 1, 1⟩ : Date))
        (monthIdx (stopDateOf ty today) + 1 - monthIdx (⟨2004, 1, 1⟩ : Date))).filter
        ((fun r => decide (startDateOf sy ≤ r.1 ∧ r.1 ≤ stopDateOf ty today)) ∘
          (fun i => (firstOfMonth i, u.monthlyVal i))) := by
      rw [List.mem_filter]
      constructor
      · rw [List.mem_range'_1]
        omega
      · simp only [Function.comp_apply, decide_eq_true_eq]
        exact ⟨startDateOf_le_firstOfMonth hst,
          date_le_of_lt (firstOfMonth_lt_of_lt_monthBound hm1 hm2 hlt)⟩
    rw [if_pos hmem, if_pos h4]
  · have hmem : t ∉ (List.range' (monthIdx (⟨2004, 1, 1⟩ : Date))
        (monthIdx (stopDateOf ty today) + 1 - monthIdx (⟨2004, 1, 1⟩ : Date))).filter
        ((fun r => decide (startDateOf sy ≤ r.1 ∧ r.1 ≤ stopDateOf ty today)) ∘
          (fun i => (firstOfMonth i, u.monthlyVal i))) := by
      intro hmem
      rw [List.mem_filter, List.mem_range'_1] at hmem
      exact h4 hmem.1.1
    rw [if_neg hmem, if_neg h4]


theorem monthlyAt_mono (u : Upstream) {t t' : Nat} (h : t ≤ t')
    (hne : monthlyAt u t ≠ none) : monthlyAt u t' ≠ none := by
  unfold monthlyAt at *
  by_cases hc : monthIdx (⟨2004, 1, 1⟩ : Date) ≤ t
  · rw [if_pos (by omega : monthIdx (⟨2004, 1, 1⟩ : Date) ≤ t')]
    exact Option.some_ne_none _
  · rw [if_neg hc] at hne
    exact absurd rfl hne

theorem avgCol_eq (u : Upstream) (sy ty : Nat) (today : Date) (hvt : validDate today) :
    avgCol u (startDateOf sy) (stopDateOf ty today) =
      (daysList (startDateOf sy) (stopDateOf ty today)).map
        (fun dt => (dt, some (resampleMeanM
          (dailyRows u (startDateOf sy) (stopDateOf ty today)) (monthIdx dt)))) := by
  obtain ⟨hm1, hm2, hd1, hd2⟩ := validDate_stopDateOf ty today hvt
  have hloop := dailyFetchLoop_eq (monthIdx (startDateOf sy)) (stopDateOf ty today) hm1 hm2
  have hhead : ∀ t, monthIdx (startDateOf sy) ≤ t →
      t < monthIdx (startDateOf sy) +
        (monthBound (stopDateOf ty today) - monthIdx (startDateOf sy)) →
      colLookup (firstOfMonth t) (dailyaverage u (startDateOf sy) (stopDateOf ty today)) =
        some (resampleMeanM (dailyRows u (startDateOf sy) (stopDateOf ty today)) t) := by
    intro t h1 h2
    rw [dailyaverage_eq, hloop, colLookup_map_firstOfMonth,
      if_pos (List.mem_range'_1.mpr ⟨h1, h2⟩)]
  have hkeys : ∀ p ∈ dailyaverage u (startDateOf sy) (stopDateOf ty today), p.1.d = 1 := by
    rw [dailyaverage_eq, hloop]
    intro p hp
    rw [List.mem_map] at hp
    obtain ⟨j, -, rfl⟩ := hp
    rfl
  generalize hMean :
    resampleMeanM (dailyRows u (startDateOf sy) (stopDateOf ty today)) = μ at hhead ⊢
  unfold avgCol avgColRaw
  rw [dailyRows_eq_map, List.map_map]
  unfold daysList
  rw [hloop, List.map_flatMap,
    ← flatMap_months_pointwise
      (fun t dt => (dt, some (μ t)))
      (fun dt => (dt, some (μ (monthIdx dt))))
      _ (fun t ht dt hdt => by
          show ((dt : Date), some (μ t)) = (dt, some (μ (monthIdx dt)))
          rw [monthIdx_of_mem_monthDays hdt])]
  exact ffill_col_core
    (fun dt => colLookup dt (dailyaverage u (startDateOf sy) (stopDateOf ty today)))
    (fun t => some (μ t))
    (monthBound (stopDateOf ty today) - monthIdx (startDateOf sy))
    (monthIdx (startDateOf sy)) none
    hhead
    (fun t h1 h2 dt hdt hne => colLookup_eq_none dt _ hkeys hne)
    (fun t t' _ _ _ _ => Option.some_ne_none _)
    (fun _ h => absurd h (Option.some_ne_none _))

theorem monthlyCol_eq (u : Upstream) (sy ty : Nat) (today : Date) (hvt : validDate today) :
    monthlyCol u (startDateOf sy) (stopDateOf ty today) =
      (daysList (startDateOf sy) (stopDateOf ty today)).map
        (fun dt => (dt, monthlyAt u (monthIdx dt))) := by
  obtain ⟨hm1, hm2, hd1, hd2⟩ := validDate_stopDateOf ty today hvt
  have hloop := dailyFetchLoop_eq (monthIdx (startDateOf sy)) (stopDateOf ty today) hm1 hm2
  unfold monthlyCol monthlyColRaw
  rw [dailyRows_eq_map, List.map_map]
  unfold daysList
  rw [hloop, List.map_flatMap,
    ← flatMap_months_pointwise
      (fun t dt => (dt, monthlyAt u t))
      (fun dt => (dt, monthlyAt u (monthIdx dt)))
      _ (fun t ht dt hdt => by
          show ((dt : Date), monthlyAt u t) = (dt, monthlyAt u (monthIdx dt))
          rw [monthIdx_of_mem_monthDays hdt])]
  exact ffill_col_core
    (fun dt => colLookup dt (monthlySliced u (startDateOf sy) (stopDateOf ty today)))
    (fun t => monthlyAt u t)
    (monthBound (stopDateOf ty today) - monthIdx (startDateOf sy))
    (monthIdx (startDateOf sy)) none
    (fun t h1 h2 => monthlySliced_lookup u sy ty today hvt h1 (by omega))
    (fun t h1 h2 dt hdt hne =>
      colLookup_eq_none dt _ (monthlySliced_keys u _ _) hne)
    (fun t t' h1 h2 h3 hne => monthlyAt_mono u h2 hne)
    (fun _ _ => rfl)

/-! ### The assembled table -/

theorem mkRows_map (L : List Date) (f : Date → ℚ) (A M : Date → Option ℚ) :
    mkRows (L.map fun dt => (dt, f dt)) (L.map fun dt => (dt, A dt))
        (L.map fun dt => (dt, M dt)) =
      L.map (fun dt =>
        { ts := dt, unscaled := f dt, monthly := toFVal (M dt),
          scale := fdivO (M dt) (A dt),
          scaled := fmulU (f dt) (fdivO (M dt) (A dt)) }) := by
  induction L with
  | nil => rfl
  | cons dt L ih =>
    simp only [List.map_cons, mkRows]
    rw [ih]

theorem dailyFetchLoopAux_nil {i : Nat} {stop : Date} (h : ¬ firstOfMonth i < stop) :
    ∀ fuel, dailyFetchLoopAux fuel i stop = []
  | 0 => rfl
  | fuel + 1 => by
    unfold dailyFetchLoopAux
    rw [if_neg h]

theorem firstOfMonth_monthIdx_startDateOf (sy : Nat) :
    firstOfMonth (monthIdx (startDateOf sy)) = startDateOf sy :=
  firstOfMonth_monthIdx (by simp [startDateOf]) (by simp [startDateOf]) rfl

theorem getDailyData_none (u : Upstream) (sy ty : Nat) (today : Date)
    (h : stopDateOf ty today ≤ startDateOf sy) : getDailyData u sy ty today = none := by
  unfold getDailyData
  rw [if_pos]
  unfold dailyFetchLoop
  exact dailyFetchLoopAux_nil
    (by rw [firstOfMonth_monthIdx_startDateOf]; exact date_not_lt_of_le h) _

theorem getDailyData_eq (u : Upstream) (sy ty : Nat) (today : Date) (hvt : validDate today)
    (hlt : startDateOf sy < stopDateOf ty today) :
    getDailyData u sy ty today =
      some ((daysList (startDateOf sy) (stopDateOf ty today)).map
        (rowOf u (startDateOf sy) (stopDateOf ty today))) := by
  obtain ⟨hm1, hm2, hd1, hd2⟩ := validDate_stopDateOf ty today hvt
  have hloop := dailyFetchLoop_eq (monthIdx (startDateOf sy)) (stopDateOf ty today) hm1 hm2
  have hsb : monthIdx (startDateOf sy) < monthBound (stopDateOf ty today) :=
    lt_monthBound_of_firstOfMonth_lt
      (by rw [firstOfMonth_monthIdx_startDateOf]; exact hlt)
  have hne : dailyFetchLoop (monthIdx (startDateOf sy)) (stopDateOf ty today) ≠ [] := by
    rw [hloop]
    intro hcon
    have hlen := congrArg List.length hcon
    rw [List.length_range'] at hlen
    simp only [List.length_nil] at hlen
    omega
  unfold getDailyData
  rw [if_neg hne]
  rw [dailyRows_eq_map, avgCol_eq u sy ty today hvt, monthlyCol_eq u sy ty today hvt,
    mkRows_map]
  rfl

theorem table_pairs (u : Upstream) (start stop : Date) :
    ((daysList start stop).map (rowOf u start stop)).map (fun r => (r.ts, r.unscaled)) =
      dailyRows u start stop := by
  rw [List.map_map, dailyRows_eq_map]
  rfl

/-! ### Counting rows per day -/

theorem date_le_of_not_lt {a b : Date} (h : ¬ a < b) : b ≤ a := by
  rw [date_lt_iff] at h
  rw [date_le_iff]
  omega

theorem date_ne_of_lt {a b : Date} (h : a < b) : a ≠ b := by
  intro he
  subst he
  rw [date_lt_iff] at h
  omega

theorem countP_eq_one_list {α : Type} [DecidableEq α] {l : List α} {d : α}
    (hl : l.Nodup) (hd : d ∈ l) : l.countP (fun x => decide (x = d)) = 1 := by
  induction l with
  | nil => cases hd
  | cons a l ih =>
    rw [List.countP_cons]
    rw [List.nodup_cons] at hl
    rcases List.mem_cons.mp hd with h | h
    · subst h
      have hz : l.countP (fun x => decide (x = d)) = 0 := by
        rw [List.countP_eq_zero]
        intro x hx
        simp only [decide_eq_true_eq]
        intro he
        exact hl.1 (he ▸ hx)
      rw [hz]
      simp
    · have ha : ¬ (a = d) := fun he => hl.1 (he ▸ h)
      rw [ih hl.2 h]
      simp [ha]

theorem countP_monthDays (d : Date) (hd : validDate d) (i : Nat) :
    (monthDays i).countP (fun dt => decide (dt = d)) =
      if monthIdx d = i then 1 else 0 := by
  by_cases h : monthIdx d = i
  · rw [if_pos h]
    apply countP_eq_one_list (nodup_monthDays i)
    obtain ⟨h1, h2, h3, h4⟩ := hd
    have hy : d.y = i / 12 := by unfold monthIdx at h; omega
    have hm : d.m = i % 12 + 1 := by unfold monthIdx at h; omega
    rw [mem_monthDays]
    exact ⟨hy, hm, h3, by rw [← hy, ← hm]; exact h4⟩
  · rw [if_neg h]
    rw [List.countP_eq_zero]
    intro dt hdt
    simp only [decide_eq_true_eq]
    intro he
    subst he
    exact h (monthIdx_of_mem_monthDays hdt)

theorem countP_flatMap_eq {α β : Type} (p : α → Bool) (f : β → List α) (l : List β) :
    (l.flatMap f).countP p = (l.map (fun b => (f b).countP p)).sum := by
  induction l with
  | nil => rfl
  | cons b l ih =>
    rw [List.flatMap_cons, List.countP_append, List.map_cons, List.sum_cons, ih]

theorem sum_ind_range' (t : Nat) : ∀ (n s : Nat),
    ((List.range' s n).map (fun i => if t = i then 1 else 0)).sum =
      if s ≤ t ∧ t < s + n then 1 else 0
  | 0, s => by
    simp only [List.range'_zero, List.map_nil, List.sum_nil]
    split
    · omega
    · rfl
  | n + 1, s => by
    rw [List.range'_succ, List.map_cons, List.sum_cons, sum_ind_range' t n (s + 1)]
    split_ifs <;> omega

theorem daysList_countP (start stop : Date) (hm1 : 1 ≤ stop.m) (hm2 : stop.m ≤ 12)
    (d : Date) (hd : validDate d) :
    (daysList start stop).countP (fun dt => decide (dt = d)) =
      if monthIdx start ≤ monthIdx d ∧ monthIdx d < monthBound stop then 1 else 0 := by
  unfold daysList
  rw [dailyFetchLoop_eq _ _ hm1 hm2, countP_flatMap_eq,
    List.map_congr_left (fun i _ => countP_monthDays d hd i),
    sum_ind_range']
  by_cases hc : monthIdx start ≤ monthIdx d ∧ monthIdx d < monthBound stop
  · rw [if_pos (by omega), if_pos hc]
  · rw [if_neg (by omega), if_neg hc]

theorem monthIdx_bounds {sy : Nat} {d stop : Date} (hd : validDate d)
    (hles : startDateOf sy ≤ d) (hltd : d < stop) :
    monthIdx (startDateOf sy) ≤ monthIdx d ∧ monthIdx d < monthBound stop := by
  obtain ⟨h1, h2, h3, h4⟩ := hd
  rw [date_le_iff] at hles
  rw [date_lt_iff] at hltd
  simp only [startDateOf] at hles
  unfold monthIdx monthBound startDateOf
  split <;> (simp only [monthIdx]; omega)

theorem cross_month_lt {i j : Nat} (hij : i < j) {x y : Date}
    (hx : x ∈ monthDays i) (hy : y ∈ monthDays j) : x < y := by
  rw [mem_monthDays] at hx hy
  rw [date_lt_iff]
  omega

theorem pairwise_lt_daysList (start stop : Date) (hm1 : 1 ≤ stop.m) (hm2 : stop.m ≤ 12) :
    (daysList start stop).Pairwise (fun a b => a < b) := by
  unfold daysList
  have key : ∀ l : List Nat, l.Pairwise (fun a b => a < b) →
      (l.flatMap monthDays).Pairwise (fun a b : Date => a < b) := by
    intro l hl
    induction l with
    | nil => simp
    | cons i rest ih =>
      rw [List.flatMap_cons, List.pairwise_append]
      rw [List.pairwise_cons] at hl
      refine ⟨pairwise_lt_monthDays i, ih hl.2, ?_⟩
      intro x hx y hy
      rw [List.mem_flatMap] at hy
      obtain ⟨j, hj, hyj⟩ := hy
      exact cross_month_lt (hl.1 j hj) hx hyj
  rw [dailyFetchLoop_eq _ _ hm1 hm2]
  exact key _ (pairwise_lt_range'_one _ _)

/-! ### The retry loop -/

theorem fetchGo_replicate (n : Nat) (rest : List FetchOutcome) : ∀ a : Nat,
    fetchGo a (List.replicate n FetchOutcome.rateLimited ++ rest) =
      ((List.range' a n).map (fun k => 300 * k) ++ (fetchGo (a + n) rest).1,
        (fetchGo (a + n) rest).2) := by
  induction n with
  | zero =>
    intro a
    simp [List.replicate]
  | succ n ih =>
    intro a
    rw [List.replicate_succ, List.cons_append]
    simp only [fetchGo]
    rw [ih (a + 1)]
    have hn : a + 1 + n = a + (n + 1) := by omega
    rw [hn, List.range'_succ, List.map_cons, List.cons_append]

/-- C3: `_fetchData` catches the rate-limit error and retries, with no bound
on the number of retries (any number `n` of consecutive rate-limited attempts
is survived); it returns the series of the first successful attempt; an
outcome other than the rate-limit error is not caught, so it propagates on
the first attempt where it occurs; and if every attempt is rate limited the
loop never exits. -/
theorem C3_retry_policy (n : Nat) (s : ℚ) (e : Nat) (rest : List FetchOutcome) :
    (_fetchData (List.replicate n FetchOutcome.rateLimited ++
        FetchOutcome.ok s :: rest)).2 = FetchResult.success s ∧
    (_fetchData (List.replicate n FetchOutcome.rateLimited ++
        FetchOutcome.fatal e :: rest)).2 = FetchResult.raised e ∧
    (_fetchData (List.replicate n FetchOutcome.rateLimited)).2 = FetchResult.diverged := by
  unfold _fetchData
  refine ⟨?_, ?_, ?_⟩
  · rw [fetchGo_replicate]
    rfl
  · rw [fetchGo_replicate]
    rfl
  · rw [show List.replicate n FetchOutcome.rateLimited =
        List.replicate n FetchOutcome.rateLimited ++ [] from (List.append_nil _).symm,
      fetchGo_replicate]
    rfl

/-- C10: in `_fetchData` the wait before the n-th retry (counting from 1) is
exactly `300 * (n - 1)` seconds: the first retry happens immediately after a
zero-second sleep and each further rate-limited failure adds 300 seconds. -/
theorem C10_backoff_schedule (n : Nat) (s : ℚ) (rest : List FetchOutcome) :
    (_fetchData (List.replicate n FetchOutcome.rateLimited ++
        FetchOutcome.ok s :: rest)).1 = (List.range n).map (fun k => 300 * k) ∧
    ∀ i : Nat,
      ((_fetchData (List.replicate n FetchOutcome.rateLimited ++
          FetchOutcome.ok s :: rest)).1)[i]? =
        if i < n then some (300 * i) else none := by
  have h1 : (_fetchData (List.replicate n FetchOutcome.rateLimited ++
      FetchOutcome.ok s :: rest)).1 = (List.range n).map (fun k => 300 * k) := by
    unfold _fetchData
    rw [fetchGo_replicate, List.range_eq_range']
    simp [fetchGo]
  refine ⟨h1, ?_⟩
  intro i
  rw [h1, List.getElem?_map]
  by_cases hi : i < n
  · rw [List.getElem?_range hi, if_pos hi]
    rfl
  · rw [if_neg hi, List.getElem?_eq_none]
    · rfl
    · rw [List.length_range]
      omega

/-! ### The effective window and the month enumeration -/

/-- C4: the effective window end is `min(Dec 31 of stop_year, today)`; the
monthly frame is requested for the range anchored at 2004-01-01 regardless of
`start_year` and then sliced to `[start_date, stop_date]`: its rows are
exactly the months from January 2004 to the month of `stop_date` whose first
day lies inside `[start_date, stop_date]`, carrying the upstream monthly
values. -/
theorem C4_monthly_window (u : Upstream) (sy ty : Nat) (today : Date) :
    (stopDateOf ty today ≤ (⟨ty, 12, 31⟩ : Date) ∧ stopDateOf ty today ≤ today ∧
      (stopDateOf ty today = ⟨ty, 12, 31⟩ ∨ stopDateOf ty today = today)) ∧
    (∀ dt v, (dt, v) ∈ monthlySliced u (startDateOf sy) (stopDateOf ty today) ↔
      ∃ i, monthIdx (⟨2004, 1, 1⟩ : Date) ≤ i ∧ i ≤ monthIdx (stopDateOf ty today) ∧
        dt = firstOfMonth i ∧ v = u.monthlyVal i ∧
        startDateOf sy ≤ dt ∧ dt ≤ stopDateOf ty today) := by
  constructor
  · unfold stopDateOf
    by_cases h : (⟨ty, 12, 31⟩ : Date) ≤ today
    · rw [if_pos h]
      exact ⟨date_le_refl _, h, Or.inl rfl⟩
    · rw [if_neg h]
      exact ⟨date_le_of_not_le h, date_le_refl _, Or.inr rfl⟩
  · intro dt v
    unfold monthlySliced monthlyFetched
    rw [List.mem_filter]
    simp only [List.mem_map, List.mem_range'_1, decide_eq_true_eq, Prod.mk.injEq]
    constructor
    · rintro ⟨⟨i, ⟨hi1, hi2⟩, h1, h2⟩, hc1, hc2⟩
      exact ⟨i, hi1, by omega, h1.symm, h2.symm, hc1, hc2⟩
    · rintro ⟨i, h1, h2, rfl, rfl, h5, h6⟩
      exact ⟨⟨i, ⟨h1, by omega⟩, rfl, rfl⟩, h5, h6⟩

/-- C5 counterexample: for `start_year = stop_year = 2026` run with
`today = 2026-10-12` the loop's October iteration fetches the time range
2026-10-01 .. 2026-10-31, whose end lies after `stop_date = 2026-10-12`: the
fetched ranges are not clipped to `stop_date`. -/
theorem C5_counterexample : ¬ monthEnumClipped 2026 2026 ⟨2026, 10, 12⟩ := by
  unfold monthEnumClipped
  intro h
  have hmem : ((firstOfMonth 24321, lastDateOfMonth 24321) : Date × Date) ∈
      fetchRanges (startDateOf 2026) (stopDateOf 2026 ⟨2026, 10, 12⟩) := by decide
  have hle := (h _ hmem).2
  exact absurd hle (by decide)

/-- C5 amended: the loop enumerates, in ascending order, exactly the calendar
months whose first day lies in the half-open window `[start_date, stop_date)`
(so a month starting exactly at `stop_date` is not fetched), and each
iteration fetches the full month from its first to its last day: the range is
clipped at `start_date` only because `start_date` is itself a month first, and
the final range may extend past `stop_date` to the end of its month. -/
theorem C5_month_enum (sy ty : Nat) (today : Date) (hvt : validDate today) :
    monthEnumActual sy ty today := by
  obtain ⟨hm1, hm2, hd1, hd2⟩ := validDate_stopDateOf ty today hvt
  have hloop := dailyFetchLoop_eq (monthIdx (startDateOf sy)) (stopDateOf ty today) hm1 hm2
  unfold monthEnumActual
  refine ⟨by unfold fetchRanges; rw [hloop], ?_, ?_⟩
  · intro r hr
    unfold fetchRanges at hr
    rw [hloop, List.mem_map] at hr
    obtain ⟨i, hi, rfl⟩ := hr
    rw [List.mem_range'_1] at hi
    refine ⟨startDateOf_le_firstOfMonth hi.1,
      firstOfMonth_lt_of_lt_monthBound hm1 hm2 (by omega), ?_⟩
    show lastDateOfMonth i = lastDateOfMonth (monthIdx (firstOfMonth i))
    rw [monthIdx_firstOfMonth]
  · unfold fetchRanges
    rw [hloop]
    refine List.Pairwise.map _ ?_ (pairwise_lt_range'_one _ _)
    intro a b hab
    show firstOfMonth a < firstOfMonth b
    rw [date_lt_iff]
    simp only [firstOfMonth]
    omega

theorem C5_month_enum_witness : monthEnumActual 2004 2004 ⟨2004, 3, 1⟩ :=
  C5_month_enum 2004 2004 ⟨2004, 3, 1⟩ (by decide)

/-! ### Empty window -/

/-- C7 counterexample: with `start_year = 2028`, `stop_year = 2027` and
`today = 2026-01-01` the window is empty (`start_date > stop_date`), and
`getDailyData` raises (the `pd.concat` of zero frames, modelled as `none`)
instead of returning an empty table. -/
theorem C7_counterexample :
    stopDateOf 2027 ⟨2026, 1, 1⟩ < startDateOf 2028 ∧
      ¬ emptyWindowOk uStub 2028 2027 ⟨2026, 1, 1⟩ := by
  refine ⟨by decide, ?_⟩
  unfold emptyWindowOk
  rw [getDailyData_none uStub 2028 2027 ⟨2026, 1, 1⟩ (by decide)]
  exact fun h => Option.noConfusion h

/-- C7 amended: when `start_date > stop_date` the month loop performs no
iteration, so the `results` dict is empty and `pd.concat` at dailydata.py
line 115 raises `ValueError` (`none` in the model); `getDailyData` does not
return an empty table. -/
theorem C7_empty_window_raises (u : Upstream) (sy ty : Nat) (today : Date)
    (h : stopDateOf ty today < startDateOf sy) : getDailyData u sy ty today = none :=
  getDailyData_none u sy ty today (date_le_of_lt h)

theorem C7_empty_window_raises_witness :
    stopDateOf 2039 ⟨2030, 5, 5⟩ < startDateOf 2040 ∧
      getDailyData uStub 2040 2039 ⟨2030, 5, 5⟩ = none :=
  ⟨by decide, C7_empty_window_raises uStub 2040 2039 ⟨2030, 5, 5⟩ (by decide)⟩

/-! ### Pacing -/

theorem pacingDelays_one : pacingDelays 1 = none := by
  unfold pacingDelays
  rw [if_neg]
  rintro ⟨-, h⟩
  rw [show (10 * 1 : ℚ) = ((10 : Nat) : ℚ) by norm_num, Rat.num_natCast] at h
  norm_num at h

/-- C9 counterexample: `wait_time = 1` satisfies `wait_time ≥ 1`, but the
pacing computation `randrange(10, 10 * wait_time)` raises `ValueError: empty
range`, so the delay is not well defined. -/
theorem C9_counterexample : (1 : ℚ) ≤ 1 ∧ ¬ pacingOk 1 := by
  refine ⟨le_refl 1, ?_⟩
  unfold pacingOk
  rintro ⟨L, hL, -, -⟩
  rw [pacingDelays_one] at hL
  exact Option.noConfusion hL

/-- C9 amended: the pacing delay is well defined exactly when
`10 * wait_time` is an integer strictly greater than 10 (otherwise
`randrange` raises), and then it is drawn uniformly from the multiples of
one tenth in `[1, wait_time - 1/10]` — a half-open version of the claimed
interval `[1, wait_time]`. -/
theorem C9_pacing_amended (w : ℚ) (N : Nat) (hN : 10 * w = (N : ℚ)) (hlt : 10 < N) :
    ∃ L, pacingDelays w = some L ∧ L ≠ [] ∧
      ∀ x ∈ L, 1 ≤ x ∧ x ≤ w - 1 / 10 := by
  unfold pacingDelays
  rw [hN]
  rw [if_pos ⟨Rat.den_natCast N, by rw [Rat.num_natCast]; exact_mod_cast hlt⟩]
  rw [Rat.num_natCast, Int.toNat_natCast]
  refine ⟨_, rfl, ?_, ?_⟩
  · intro hcon
    have hlen := congrArg List.length hcon
    rw [List.length_map, List.length_range'] at hlen
    simp only [List.length_nil] at hlen
    omega
  · intro x hx
    rw [List.mem_map] at hx
    obtain ⟨k, hk, rfl⟩ := hx
    rw [List.mem_range'_1] at hk
    constructor
    · rw [le_div_iff₀ (by norm_num : (0 : ℚ) < 10)]
      have : (10 : ℚ) ≤ (k : ℚ) := by exact_mod_cast hk.1
      linarith
    · rw [div_le_iff₀ (by norm_num : (0 : ℚ) < 10)]
      have hkN : k + 1 ≤ N := by omega
      have hq : ((k : ℚ) + 1) ≤ (N : ℚ) := by exact_mod_cast hkN
      linarith [hN]

theorem C9_pacing_amended_witness :
    ∃ L, pacingDelays 5 = some L ∧ L ≠ [] ∧
      ∀ x ∈ L, 1 ≤ x ∧ x ≤ 5 - 1 / 10 :=
  C9_pacing_amended 5 50 (by norm_num) (by norm_num)

/-! ### The scaling invariant and the output rows -/

/-- C1: for every row of the table returned by `getDailyData` (run inside the
upstream data domain, `start_year ≥ 2004`), the unscaled column carries the
upstream daily value, the monthly column carries the upstream monthly value
of the row's month, the scale is the monthly value divided (with float
semantics) by the mean of the table's unscaled column over that month's rows,
and the scaled value is the unscaled value times the scale. -/
theorem C1_scale_invariant (u : Upstream) (sy ty : Nat) (today : Date)
    (h2004 : 2004 ≤ sy) (hvt : validDate today) : scaleInvariant u sy ty today := by
  unfold scaleInvariant
  by_cases hlt : startDateOf sy < stopDateOf ty today
  · rw [getDailyData_eq u sy ty today hvt hlt]
    simp only [Option.getD_some]
    intro row hrow
    rw [List.mem_map] at hrow
    obtain ⟨dt, hdt, rfl⟩ := hrow
    have hdt' := hdt
    unfold daysList at hdt'
    rw [List.mem_flatMap] at hdt'
    obtain ⟨t, ht, hdtm⟩ := hdt'
    have hmi : monthIdx dt = t := monthIdx_of_mem_monthDays hdtm
    obtain ⟨hm1, hm2, -, -⟩ := validDate_stopDateOf ty today hvt
    rw [dailyFetchLoop_eq _ _ hm1 hm2, List.mem_range'_1] at ht
    have h24 : monthIdx (⟨2004, 1, 1⟩ : Date) ≤ monthIdx dt := by
      have hs := monthIdx_startDateOf sy
      have h2 : monthIdx (⟨2004, 1, 1⟩ : Date) = 24048 := rfl
      omega
    have hma : monthlyAt u (monthIdx dt) = some (u.monthlyVal (monthIdx dt)) := by
      unfold monthlyAt
      rw [if_pos h24]
    refine ⟨rfl, ?_, ?_, rfl⟩
    · show toFVal (monthlyAt u (monthIdx dt)) = FVal.fin (u.monthlyVal (monthIdx dt))
      rw [hma]
      rfl
    · show fdivO (monthlyAt u (monthIdx dt))
          (some (resampleMeanM (dailyRows u (startDateOf sy) (stopDateOf ty today))
            (monthIdx dt))) = _
      rw [hma]
      unfold tableMonthAvg
      rw [table_pairs]
      rfl
  · rw [getDailyData_none u sy ty today (date_le_of_not_lt hlt)]
    simp

theorem C1_scale_invariant_witness : scaleInvariant uZero 2004 2004 ⟨2004, 3, 1⟩ :=
  C1_scale_invariant uZero 2004 2004 ⟨2004, 3, 1⟩ (le_refl _) (by decide)

/-- C2 counterexample: `start_year = stop_year = 2030` satisfies
`start_year ≤ stop_year`, but run with `today = 2026-10-12` the effective
window is empty, the month loop never executes, and `pd.concat` raises: no
table with one row per day is returned. -/
theorem C2_counterexample : 2030 ≤ 2030 ∧ ¬ oneRowPerDay uStub 2030 2030 ⟨2026, 10, 12⟩ := by
  refine ⟨le_refl _, ?_⟩
  unfold oneRowPerDay
  rintro ⟨tbl, htbl, -, -⟩
  rw [getDailyData_none uStub 2030 2030 ⟨2026, 10, 12⟩ (by decide)] at htbl
  exact Option.noConfusion htbl

/-- C2 amended: whenever `start_year ≤ stop_year` and additionally
`start_date < stop_date` (January 1st of `start_year` strictly before
`min(Dec 31 of stop_year, today)`), the returned table has exactly one row
per calendar day of the half-open window `[start_date, stop_date)` and no two
rows share a timestamp.  (The table also carries rows from `stop_date` to the
end of its month; they do not affect either property.) -/
theorem C2_one_row_per_day (u : Upstream) (sy ty : Nat) (today : Date)
    (hy : sy ≤ ty) (hvt : validDate today)
    (hlt : startDateOf sy < stopDateOf ty today) : oneRowPerDay u sy ty today := by
  obtain ⟨hm1, hm2, hd1, hd2⟩ := validDate_stopDateOf ty today hvt
  unfold oneRowPerDay
  refine ⟨_, getDailyData_eq u sy ty today hvt hlt, ?_, ?_⟩
  · intro d hd hles hltd
    rw [List.countP_map]
    have hcomp : ((fun r => decide (r.ts = d)) ∘
        rowOf u (startDateOf sy) (stopDateOf ty today)) =
        (fun dt => decide (dt = d)) := rfl
    rw [hcomp, daysList_countP _ _ hm1 hm2 d hd,
      if_pos (monthIdx_bounds hd hles hltd)]
  · have hmapts : ((daysList (startDateOf sy) (stopDateOf ty today)).map
        (rowOf u (startDateOf sy) (stopDateOf ty today))).map Row.ts =
        daysList (startDateOf sy) (stopDateOf ty today) := by
      rw [List.map_map]
      exact List.map_id _
    rw [hmapts]
    exact (pairwise_lt_daysList _ _ hm1 hm2).imp (fun hab => date_ne_of_lt hab)

theorem C2_one_row_per_day_witness : oneRowPerDay uStub 2004 2004 ⟨2004, 3, 1⟩ :=
  C2_one_row_per_day uStub 2004 2004 ⟨2004, 3, 1⟩ (le_refl _) (by decide) (by decide)

/-- C6: the resampled per-month means are keyed at calendar month ends
before the index truncation and at calendar month starts after it; after
forward filling, every row of the daily frame carries its own month's mean,
and (for windows inside the upstream data domain, `start_year ≥ 2004`) every
row carries its own month's monthly value. -/
theorem C6_alignment (u : Upstream) (sy ty : Nat) (today : Date)
    (h2004 : 2004 ≤ sy) (hvt : validDate today) : monthAlignment u sy ty today := by
  obtain ⟨hm1, hm2, hd1, hd2⟩ := validDate_stopDateOf ty today hvt
  have hloop := dailyFetchLoop_eq (monthIdx (startDateOf sy)) (stopDateOf ty today) hm1 hm2
  unfold monthAlignment
  refine ⟨?_, ?_, ?_, ?_⟩
  · intro p hp
    unfold dailyaverageRaw at hp
    rw [List.mem_map] at hp
    obtain ⟨i, -, rfl⟩ := hp
    rfl
  · intro p hp
    rw [dailyaverage_eq, List.mem_map] at hp
    obtain ⟨i, -, rfl⟩ := hp
    refine ⟨rfl, ?_⟩
    show resampleMeanM _ i = resampleMeanM _ (monthIdx (firstOfMonth i))
    rw [monthIdx_firstOfMonth]
  · intro p hp
    rw [avgCol_eq u sy ty today hvt, List.mem_map] at hp
    obtain ⟨dt, -, rfl⟩ := hp
    rfl
  · intro p hp
    rw [monthlyCol_eq u sy ty today hvt, List.mem_map] at hp
    obtain ⟨dt, hdt, rfl⟩ := hp
    unfold daysList at hdt
    rw [List.mem_flatMap] at hdt
    obtain ⟨t, ht, hdtm⟩ := hdt
    rw [hloop, List.mem_range'_1] at ht
    have hge : monthIdx (⟨2004, 1, 1⟩ : Date) ≤ t := by
      have hs := monthIdx_startDateOf sy
      have h2 : monthIdx (⟨2004, 1, 1⟩ : Date) = 24048 := rfl
      omega
    show monthlyAt u (monthIdx dt) = some (u.monthlyVal (monthIdx dt))
    rw [monthIdx_of_mem_monthDays hdtm]
    unfold monthlyAt
    rw [if_pos hge]

theorem C6_alignment_witness : monthAlignment uStub 2004 2004 ⟨2004, 3, 1⟩ :=
  C6_alignment uStub 2004 2004 ⟨2004, 3, 1⟩ (le_refl _) (by decide)

/-- C8: computing the scale of a month whose unscaled daily values average to
zero does not raise: the scale of that month's rows is the non-finite marker,
and the scaled values propagate it instead of being replaced by a default. -/
theorem C8_zero_month (u : Upstream) (sy ty : Nat) (today : Date)
    (hvt : validDate today) : zeroMonthUndef u sy ty today := by
  unfold zeroMonthUndef
  by_cases hlt : startDateOf sy < stopDateOf ty today
  · rw [getDailyData_eq u sy ty today hvt hlt]
    simp only [Option.getD_some]
    intro row hrow hmean
    rw [List.mem_map] at hrow
    obtain ⟨dt, hdt, rfl⟩ := hrow
    have hmean' : resampleMeanM (dailyRows u (startDateOf sy) (stopDateOf ty today))
        (monthIdx dt) = 0 := hmean
    have hsc : fdivO (monthlyAt u (monthIdx dt))
        (some (resampleMeanM (dailyRows u (startDateOf sy) (stopDateOf ty today))
          (monthIdx dt))) = FVal.undef := by
      rw [hmean']
      cases monthlyAt u (monthIdx dt) with
      | none => rfl
      | some a =>
        simp [fdivO]
    refine ⟨hsc, ?_⟩
    show fmulU (u.dailyVal dt) (fdivO (monthlyAt u (monthIdx dt))
      (some (resampleMeanM (dailyRows u (startDateOf sy) (stopDateOf ty today))
        (monthIdx dt)))) = FVal.undef
    rw [hsc]
    rfl
  · rw [getDailyData_none u sy ty today (date_le_of_not_lt hlt)]
    simp

theorem resampleMeanM_zero (rows : List (Date × ℚ)) (i : Nat)
    (h : ∀ r ∈ rows, monthIdx r.1 = i → r.2 = 0) : resampleMeanM rows i = 0 := by
  simp only [resampleMeanM]
  have hz : ((rows.filter (fun r => decide (monthIdx r.1 = i))).map Prod.snd).sum = 0 := by
    apply List.sum_eq_zero
    intro x hx
    rw [List.mem_map] at hx
    obtain ⟨r, hr, rfl⟩ := hx
    rw [List.mem_filter] at hr
    exact h r hr.1 (by simpa using hr.2)
  rw [hz]
  exact zero_div _

theorem C8_zero_month_witness :
    zeroMonthUndef uZero 2004 2004 ⟨2004, 3, 1⟩ ∧
    resampleMeanM (dailyRows uZero (startDateOf 2004) (stopDateOf 2004 ⟨2004, 3, 1⟩))
      (monthIdx ⟨2004, 1, 1⟩) = 0 ∧
    rowOf uZero (startDateOf 2004) (stopDateOf 2004 ⟨2004, 3, 1⟩) ⟨2004, 1, 1⟩ ∈
      (getDailyData uZero 2004 2004 ⟨2004, 3, 1⟩).getD [] := by
  refine ⟨C8_zero_month uZero 2004 2004 ⟨2004, 3, 1⟩ (by decide), ?_, ?_⟩
  · apply resampleMeanM_zero
    intro r hr hm
    rw [dailyRows_eq_map, List.mem_map] at hr
    obtain ⟨dt, hdt, rfl⟩ := hr
    have hmi : monthIdx dt = monthIdx (⟨2004, 1, 1⟩ : Date) := hm
    have hm1 : dt.m = 1 := by
      unfold daysList at hdt
      rw [List.mem_flatMap] at hdt
      obtain ⟨t, -, hdtm⟩ := hdt
      rw [mem_monthDays] at hdtm
      have h2 : monthIdx (⟨2004, 1, 1⟩ : Date) = 24048 := rfl
      rw [h2] at hmi
      unfold monthIdx at hmi
      omega
    show (if dt.m = 1 then (0 : ℚ) else 7) = 0
    rw [if_pos hm1]
  · rw [getDailyData_eq uZero 2004 2004 ⟨2004, 3, 1⟩ (by decide) (by decide)]
    simp only [Option.getD_some]
    exact List.mem_map_of_mem _ (by decide)
